import Mathlib

/-!
Verification of the EVM readable-trace renderer (`main.py`).

The Python source is shallowly embedded below.  Python strings become
`String`, Python `dict`s become association lists with last-wins insertion,
Python exceptions become `Except Unit` result channels, and the mutable
`contract_cache` field becomes an explicitly threaded value.  The two
external collaborators are parameters: the Etherscan metadata provider
(`Provider`, where `none` covers both a failed request and an empty
result) and the `eth_abi.decode` routine (`Decoder`, where `none` models a
raised decode exception).  `keccak` from `eth_utils` is implemented in
full below, so function selectors are computed, not assumed.
-/

set_option maxRecDepth 4000

namespace EVMTrace

/-! ## String helpers

Python string primitives used by the source, expressed over `String.data`
so that every string computation reduces to a list computation. -/

def chars (s : String) : List Char := s.data

def ofChars (cs : List Char) : String := String.mk cs

/-- Python slicing `s[:n]`. -/
def strTake (s : String) (n : Nat) : String := ofChars ((chars s).take n)

/-- Python slicing `s[n:]`. -/
def strDrop (s : String) (n : Nat) : String := ofChars ((chars s).drop n)

/-- Python slicing `s[:-n]` for a string of length at least `n`. -/
def strDropRight (s : String) (n : Nat) : String :=
  ofChars ((chars s).take ((chars s).length - n))

/-- Python `len` on strings (counts code points, as Lean `String.length` does). -/
def strLen (s : String) : Nat := (chars s).length

def isPrefixOfL : List Char → List Char → Bool
  | [], _ => true
  | a :: as, l =>
    match l with
    | [] => false
    | b :: bs => if a = b then isPrefixOfL as bs else false

/-- Python `s.startswith(p)`. -/
def strStartsWith (s p : String) : Bool := isPrefixOfL (chars p) (chars s)

/-- Python `s.endswith(p)`. -/
def strEndsWith (s p : String) : Bool :=
  isPrefixOfL (chars p).reverse (chars s).reverse

/-- Python `sep.join(xs)`. -/
def joinSep (sep : String) : List String → String
  | [] => ""
  | [x] => x
  | x :: xs => x ++ sep ++ joinSep sep xs

/-- Python `s * n` (string repetition). -/
def strRepeat (s : String) : Nat → String
  | 0 => ""
  | n + 1 => s ++ strRepeat s n

/-- Python `s.lower()` (the source only applies it to ASCII addresses). -/
def pyLower (s : String) : String := ofChars ((chars s).map Char.toLower)

/-- Python `s.upper()` (the source only applies it to ASCII call types). -/
def pyUpper (s : String) : String := ofChars ((chars s).map Char.toUpper)

/-! ## Hex and byte helpers -/

def hexDigitVal (c : Char) : Option Nat :=
  if '0' ≤ c ∧ c ≤ '9' then some (c.toNat - '0'.toNat)
  else if 'a' ≤ c ∧ c ≤ 'f' then some (c.toNat - 'a'.toNat + 10)
  else if 'A' ≤ c ∧ c ≤ 'F' then some (c.toNat - 'A'.toNat + 10)
  else none

def isHexDigit (c : Char) : Bool := (hexDigitVal c).isSome

def hexPairs : List Char → Option (List Nat)
  | [] => some []
  | [_] => none
  | a :: b :: rest =>
    match hexDigitVal a, hexDigitVal b, hexPairs rest with
    | some x, some y, some tl => some ((x * 16 + y) :: tl)
    | _, _, _ => none

/-- Python `bytes.fromhex`; `none` models the raised `ValueError`.
(The CPython tolerance for whitespace is modelled for the space
character, the only separator the doc guarantees.) -/
def bytesFromHex (s : String) : Option (List Nat) :=
  hexPairs ((chars s).filter (fun c => c ≠ ' '))

def hexChar (n : Nat) : Char := (chars "0123456789abcdef").getD n '0'

/-- Lowercase hex rendering of a byte list, as Python `bytes.hex()`. -/
def bytesToHex : List Nat → String
  | [] => ""
  | b :: rest => ofChars [hexChar (b / 16 % 16), hexChar (b % 16)] ++ bytesToHex rest

/-- UTF-8 encoding of one character, as Python `str.encode()`. -/
def utf8Char (c : Char) : List Nat :=
  let n := c.toNat
  if n < 0x80 then [n]
  else if n < 0x800 then [0xC0 + n / 64, 0x80 + n % 64]
  else if n < 0x10000 then [0xE0 + n / 4096, 0x80 + n / 64 % 64, 0x80 + n % 64]
  else [0xF0 + n / 262144, 0x80 + n / 4096 % 64, 0x80 + n / 64 % 64, 0x80 + n % 64]

def utf8Bytes (s : String) : List Nat :=
  (chars s).foldr (fun c acc => utf8Char c ++ acc) []

/-! ## Keccak-256 (`eth_utils.keccak`)

The legacy Keccak (pad10*1 with domain byte `0x01`) used by Ethereum,
with rate 1088 bits.  Lanes are 64-bit words represented as `Nat`
reduced mod `2 ^ 64`. -/

def MASK64 : Nat := 2 ^ 64 - 1

def rotl64 (x n : Nat) : Nat := ((x <<< n) ||| (x >>> (64 - n))) &&& MASK64

/-- Lane `x + 5 * y` of the 25-lane sponge state. -/
def lane (s : List Nat) (i : Nat) : Nat := s.getD i 0

def thetaC (s : List Nat) (x : Nat) : Nat :=
  lane s x ^^^ lane s (x + 5) ^^^ lane s (x + 10) ^^^ lane s (x + 15) ^^^ lane s (x + 20)

def theta (s : List Nat) : List Nat :=
  (List.range 25).map (fun i =>
    lane s i ^^^ thetaC s ((i % 5 + 4) % 5) ^^^ rotl64 (thetaC s ((i % 5 + 1) % 5)) 1)

/-- The rho rotation offsets, generated by the `(x, y) ↦ (y, 2x + 3y)`
walk of the Keccak specification: after `t` steps the lane at the walk's
position rotates by the triangular number `(t+1)(t+2)/2 mod 64`. -/
def rhoWalk : Nat → Nat → Nat → Nat → List (Nat × Nat)
  | 0, _, _, _ => []
  | n + 1, t, x, y =>
    (x + 5 * y, (t + 1) * (t + 2) / 2 % 64) :: rhoWalk n (t + 1) y ((2 * x + 3 * y) % 5)

def rhoTable : List (Nat × Nat) := (0, 0) :: rhoWalk 24 0 1 0

def rhoOff (i : Nat) : Nat := (rhoTable.lookup i).getD 0

def rhoPi (s : List Nat) : List Nat :=
  (List.range 25).map (fun i =>
    let src := (i % 5 + 3 * (i / 5)) % 5 + 5 * (i % 5)
    rotl64 (lane s src) (rhoOff src))

def chi (s : List Nat) : List Nat :=
  (List.range 25).map (fun i =>
    let x := i % 5
    let y := i / 5
    lane s i ^^^ ((MASK64 ^^^ lane s ((x + 1) % 5 + 5 * y)) &&& lane s ((x + 2) % 5 + 5 * y)))

/-- The `rc` bit generator of the Keccak specification: an 8-bit LFSR
with feedback polynomial `x^8 + x^6 + x^5 + x^4 + 1`, stepped once. -/
def rcStep (r : Nat) : Nat :=
  let r1 := 2 * r
  if r1 < 256 then r1 else r1 ^^^ 0x171

def rcReg : Nat → Nat
  | 0 => 1
  | t + 1 => rcStep (rcReg t)

/-- Round constant `RC[i]`: bit `2^j - 1` is the LFSR output `rc(j + 7*i)`. -/
def roundConstant (i : Nat) : Nat :=
  (List.range 7).foldl (fun acc j => acc + (rcReg (j + 7 * i) &&& 1) * 2 ^ (2 ^ j - 1)) 0

def roundConstants : List Nat := (List.range 24).map roundConstant

def keccakRound (s : List Nat) (rc : Nat) : List Nat :=
  match chi (rhoPi (theta s)) with
  | [] => []
  | a :: rest => (a ^^^ rc) :: rest

def keccakF (s : List Nat) : List Nat := roundConstants.foldl keccakRound s

/-- Multi-rate padding for rate 136 bytes, domain byte `0x01`. -/
def padKeccak (msg : List Nat) : List Nat :=
  let padLen := 136 - msg.length % 136
  if padLen = 1 then msg ++ [0x81]
  else msg ++ [0x01] ++ List.replicate (padLen - 2) 0 ++ [0x80]

/-- Little-endian interpretation of up to eight bytes as a 64-bit lane. -/
def bytesToLane (bs : List Nat) : Nat := bs.foldr (fun b acc => acc * 256 + b) 0

def blockLanes (block : List Nat) : List Nat :=
  (List.range 17).map (fun i => bytesToLane ((block.drop (8 * i)).take 8))

def absorbBlock (s : List Nat) (block : List Nat) : List Nat :=
  let ls := blockLanes block
  keccakF ((List.range 25).map (fun i => lane s i ^^^ ls.getD i 0))

/-- Splits a padded message (whose length is a multiple of the rate)
into its `n` rate-sized blocks; structural so that it reduces in the
kernel. -/
def chunkBlocks : Nat → List Nat → List (List Nat)
  | 0, _ => []
  | n + 1, msg => msg.take 136 :: chunkBlocks n (msg.drop 136)

def absorb (s : List Nat) (msg : List Nat) : List Nat :=
  (chunkBlocks (msg.length / 136) msg).foldl absorbBlock s

def laneBytes (x : Nat) : List Nat := (List.range 8).map (fun j => x / 256 ^ j % 256)

/-- Keccak-256 digest (32 bytes) of a byte list. -/
def keccak256 (msg : List Nat) : List Nat :=
  let s := absorb (List.replicate 25 0) (padKeccak msg)
  laneBytes (lane s 0) ++ laneBytes (lane s 1) ++ laneBytes (lane s 2) ++ laneBytes (lane s 3)

/-- `keccak(b).hex()` in the source: lowercase hex of the digest. -/
def keccakHex (msg : List Nat) : String := bytesToHex (keccak256 msg)

/-- Keccak-256 hex digest of a string's UTF-8 bytes. -/
def keccakHexOfString (s : String) : String := keccakHex (utf8Bytes s)

/-! ## Python dynamic values

Values produced by `eth_abi.decode` and consumed by `format_value`:
integers, booleans, byte strings, strings (addresses), and nested
lists/tuples.  `pyRepr`/`pyStr` model Python `repr`/`str` on these shapes
(ASCII-focused: the rare non-ASCII-printable escapes of `repr` are not
needed by any input below). -/

inductive Value where
  | vint (i : Int)
  | vbool (b : Bool)
  | vbytes (bs : List Nat)
  | vstr (s : String)
  | vlist (elems : List Value)
  | vtuple (elems : List Value)

def qChar : Char := Char.ofNat 39

def dqChar : Char := Char.ofNat 34

def bsChar : Char := Char.ofNat 92

def escByteIn (quote : Char) (b : Nat) : List Char :=
  if b = 92 then [bsChar, bsChar]
  else if b = quote.toNat then [bsChar, quote]
  else if b = 9 then [bsChar, 't']
  else if b = 10 then [bsChar, 'n']
  else if b = 13 then [bsChar, 'r']
  else if 0x20 ≤ b ∧ b ≤ 0x7e then [Char.ofNat b]
  else [bsChar, 'x', hexChar (b / 16 % 16), hexChar (b % 16)]

/-- Python `repr` of a `bytes` object. -/
def pyBytesRepr (bs : List Nat) : String :=
  let quote := if bs.contains 39 ∧ ¬ bs.contains 34 then dqChar else qChar
  "b" ++ ofChars ([quote] ++ bs.foldr (fun b acc => escByteIn quote b ++ acc) [] ++ [quote])

def escCharIn (quote : Char) (c : Char) : List Char :=
  if c = bsChar then [bsChar, bsChar]
  else if c = quote then [bsChar, quote]
  else if c = Char.ofNat 9 then [bsChar, 't']
  else if c = Char.ofNat 10 then [bsChar, 'n']
  else if c = Char.ofNat 13 then [bsChar, 'r']
  else if c.toNat < 0x20 ∨ c.toNat = 0x7f then
    [bsChar, 'x', hexChar (c.toNat / 16 % 16), hexChar (c.toNat % 16)]
  else [c]

/-- Python `repr` of a `str` object. -/
def pyStrRepr (s : String) : String :=
  let cs := chars s
  let quote := if cs.contains qChar ∧ ¬ cs.contains dqChar then dqChar else qChar
  ofChars ([quote] ++ cs.foldr (fun c acc => escCharIn quote c ++ acc) [] ++ [quote])

mutual

def pyRepr : Value → String
  | .vint i => toString i
  | .vbool b => if b then "True" else "False"
  | .vbytes bs => pyBytesRepr bs
  | .vstr s => pyStrRepr s
  | .vlist elems => "[" ++ joinSep ", " (pyReprList elems) ++ "]"
  | .vtuple [] => "()"
  | .vtuple [e] => "(" ++ pyRepr e ++ ",)"
  | .vtuple elems => "(" ++ joinSep ", " (pyReprList elems) ++ ")"

def pyReprList : List Value → List String
  | [] => []
  | v :: vs => pyRepr v :: pyReprList vs

end

/-- Python `str` on a dynamic value. -/
def pyStr : Value → String
  | .vstr s => s
  | v => pyRepr v

def commaGroupRev : List Char → List Char
  | a :: b :: c :: d :: rest => a :: b :: c :: ',' :: commaGroupRev (d :: rest)
  | l => l

/-- Python `f-string` formatting with a thousands separator, as in the
source's integer branch. -/
def commaFmt (i : Int) : String :=
  (if i < 0 then "-" else "") ++
    ofChars ((commaGroupRev (chars (toString i.natAbs)).reverse).reverse)

/-! ## Data model (`FunctionInfo`, `ContractInfo`, caches, collaborators) -/

structure FunctionInfo where
  name : String
  signature : String
  input_types : List String
  output_types : List String
  input_names : List String
  output_names : List String
deriving DecidableEq

structure ContractInfo where
  address : String
  name : String
  functions : List (String × FunctionInfo)
  abi : String
deriving DecidableEq

/-- Python `dict` lookup (`d.get(k)` / `k in d`). -/
def dlookup {β : Type} : List (String × β) → String → Option β
  | [], _ => none
  | (k, v) :: rest, key => if k = key then some v else dlookup rest key

/-- Python `dict` assignment `d[k] = v`: replaces in place, else appends. -/
def dictInsert {β : Type} : List (String × β) → String → β → List (String × β)
  | [], key, val => [(key, val)]
  | (k, v) :: rest, key, val =>
    if k = key then (key, val) :: rest else (k, v) :: dictInsert rest key val

/-- The process-wide `contract_cache` field: stores `ContractInfo` for a
verified contract and `none` (the Python `None` sentinel) for one found
unverified. -/
abbrev Cache := List (String × Option ContractInfo)

/-- One ABI input/output entry, with the JSON `.get(..., "")` defaults. -/
structure AbiParam where
  ty : String := ""
  name : String := ""
deriving DecidableEq

/-- One ABI entry (`item.get("type")`, `item.get("name", "")`, ...). -/
structure AbiItem where
  ty : String := ""
  name : String := ""
  inputs : List AbiParam := []
  outputs : List AbiParam := []
deriving DecidableEq

/-- Result of a successful Etherscan `getsourcecode` call (the first
`result` entry, fields defaulted to `""`).  `abiParsed` is the result of
`json.loads` on `abiStr`; `none` models a raised JSON parse error. -/
structure ProviderData where
  contractName : String := ""
  sourceCode : String := ""
  abiStr : String := ""
  abiParsed : Option (List AbiItem) := none

/-- The external metadata collaborator: chain id and lower-cased address
to metadata.  `none` covers both a failed request and an empty `result`
payload (`_make_etherscan_request` returning `None`). -/
abbrev Provider := Nat → String → Option ProviderData

/-- The external `eth_abi.decode` collaborator: type list and raw bytes
to decoded values; `none` models a raised decode exception. -/
abbrev Decoder := List String → List Nat → Option (List Value)

def chain_ids : List (String × Nat) := [("ETH", 1), ("BSC", 56), ("POLYGON", 137)]

/-! ## `EVMTraceParser.parse_abi` -/

def canonicalSignature (name : String) (input_types : List String) : String :=
  name ++ "(" ++ joinSep "," input_types ++ ")"

/-- The body of the `parse_abi` loop for a function entry: builds the
canonical signature from the input type strings only, hashes it and
keeps the `0x`-prefixed first eight hex characters. -/
def functionInfoOf (item : AbiItem) : FunctionInfo :=
  let input_types := item.inputs.map (fun p => p.ty)
  let input_names := item.inputs.map (fun p => p.name)
  let output_types := item.outputs.map (fun p => p.ty)
  let output_names := item.outputs.map (fun p => p.name)
  let signature := "0x" ++ strTake (keccakHexOfString (canonicalSignature item.name input_types)) 8
  ⟨item.name, signature, input_types, output_types, input_names, output_names⟩

def parseAbiStep (functions : List (String × FunctionInfo)) (item : AbiItem) :
    List (String × FunctionInfo) :=
  if item.ty = "function" then
    dictInsert functions (functionInfoOf item).signature (functionInfoOf item)
  else functions

def parse_abi (abi : List AbiItem) : List (String × FunctionInfo) :=
  abi.foldl parseAbiStep []

/-! ## `EVMTraceParser.get_contract_info` and friends -/

/-- `get_contract_info`.  Returns the resolved info (or `None`), the
updated `contract_cache`, and whether the external provider was
consulted on this call.  Note the failure path (`P .. = none`) returns
without caching anything. -/
def getContractInfo (P : Provider) (chain : String) (c : Cache) (address0 : String) :
    Option ContractInfo × Cache × Bool :=
  let address := pyLower address0
  match dlookup c address with
  | some v => (v, c, false)
  | none =>
    if !(strStartsWith address "0x") || strLen address != 42 then (none, c, false)
    else
      let chainId := (dlookup chain_ids chain).getD 1
      match P chainId address with
      | none => (none, c, true)
      | some data =>
        if data.contractName = "" then (none, dictInsert c address none, true)
        else
          let functions :=
            if data.abiStr ≠ "" ∧ data.abiStr ≠ "Contract source code not verified" then
              match data.abiParsed with
              | some abi => parse_abi abi
              | none => []
            else []
          let info : ContractInfo := ⟨address, data.contractName, functions, data.abiStr⟩
          (some info, dictInsert c address (some info), true)

/-- `get_contract_name`: resolved display name, or the address itself. -/
def getContractName (P : Provider) (chain : String) (c : Cache) (address : String) :
    String × Cache :=
  match getContractInfo P chain c address with
  | (some info, c1, _) => (info.name, c1)
  | (none, c1, _) => (address, c1)

/-- `get_function_signature`. -/
def getFunctionSignature (input_data : String) : String :=
  if input_data = "" ∨ input_data = "0x" then "<empty>"
  else if strLen input_data ≥ 10 then strTake input_data 10
  else input_data

/-- `get_function_name`. -/
def getFunctionName (P : Provider) (chain : String) (c : Cache) (address input_data : String) :
    String × Cache :=
  let signature := getFunctionSignature input_data
  if signature = "<empty>" then ("<empty>", c)
  else
    match getContractInfo P chain c address with
    | (some info, c1, _) =>
      match dlookup info.functions signature with
      | some fi => (fi.name, c1)
      | none => (signature, c1)
    | (none, c1, _) => (signature, c1)

/-! ## `decode_input_data` / `decode_output_data` -/

abbrev DecodedParam := String × String × Value

/-- Positional pairing of types, names and decoded values with the
`paramN`/`outputN` placeholders for empty names (Python `zip` truncates
at the shortest sequence). -/
def nameParams (tag : String) (types names : List String) (decoded : List Value) :
    List DecodedParam :=
  (((types.zip names).zip decoded).enum).map (fun p =>
    ((if p.2.1.2 = "" then tag ++ toString p.1 else p.2.1.2), p.2.1.1, p.2.2))

/-- `decode_input_data`.  All failure paths (unresolved contract, unknown
selector, empty parameter data, malformed hex, decode exception) yield
the empty list: the `try`/`except` in the source catches everything. -/
def decodeInputData (P : Provider) (D : Decoder) (chain : String) (c : Cache)
    (address input_data : String) : List DecodedParam × Cache :=
  if input_data = "" ∨ input_data = "0x" then ([], c)
  else
    let signature := getFunctionSignature input_data
    let r := getContractInfo P chain c address
    let c1 := r.2.1
    match r.1 with
    | none => ([], c1)
    | some info =>
      match dlookup info.functions signature with
      | none => ([], c1)
      | some fi =>
        let param_data := strDrop input_data 10
        if param_data = "" ∨ fi.input_types = [] then ([], c1)
        else
          match bytesFromHex param_data with
          | none => ([], c1)
          | some bs =>
            match D fi.input_types bs with
            | none => ([], c1)
            | some decoded => (nameParams "param" fi.input_types fi.input_names decoded, c1)

/-- `decode_output_data`. -/
def decodeOutputData (P : Provider) (D : Decoder) (chain : String) (c : Cache)
    (address input_data output_data : String) : List DecodedParam × Cache :=
  if output_data = "" ∨ output_data = "0x" then ([], c)
  else
    let signature := getFunctionSignature input_data
    let r := getContractInfo P chain c address
    let c1 := r.2.1
    match r.1 with
    | none => ([], c1)
    | some info =>
      match dlookup info.functions signature with
      | none => ([], c1)
      | some fi =>
        if fi.output_types = [] then ([], c1)
        else
          match bytesFromHex (strDrop output_data 2) with
          | none => ([], c1)
          | some bs =>
            match D fi.output_types bs with
            | none => ([], c1)
            | some decoded => (nameParams "output" fi.output_types fi.output_names decoded, c1)

/-! ## `eth_utils.to_checksum_address` (EIP-55) -/

def checksumEncode (body : List Char) : String :=
  let h := chars (keccakHexOfString (ofChars body))
  "0x" ++ ofChars ((body.zip h).map (fun p =>
    match hexDigitVal p.2 with
    | some d => if d ≥ 8 then Char.toUpper p.1 else p.1
    | none => p.1))

/-- Model of `eth_utils.to_checksum_address`: accepts a `0x`-prefixed
40-hex-digit string whose letters are all lowercase, all uppercase, or
already in correct EIP-55 case; `none` models the raised `ValueError`. -/
def toChecksumAddress (s : String) : Option String :=
  let cs := chars s
  if strStartsWith s "0x" && cs.length == 42 && (cs.drop 2).all isHexDigit then
    let body := (cs.drop 2).map Char.toLower
    let result := checksumEncode body
    if (cs.drop 2).all (fun c => !c.isAlpha || c.isLower) ||
       (cs.drop 2).all (fun c => !c.isAlpha || c.isUpper) ||
       s = result
    then some result else none
  else none

/-! ## `format_value` / `format_parameters`

The result channel `Except Unit` carries the one exception `format_value`
can raise: `to_checksum_address` on an invalid address string.  The
`contract_cache` is threaded through because the address branch resolves
names through it. -/

mutual

def formatValue (P : Provider) (chain : String) (c : Cache) (value : Value)
    (value_type : String) : Except Unit String × Cache :=
  if value_type = "address" then
    -- addr_str = to_checksum_address(value) if isinstance(value, str) else str(value)
    match value with
    | .vstr s =>
      (match toChecksumAddress s with
       | none => (.error (), c)
       | some addr_str =>
         let r := getContractName P chain c addr_str
         (.ok r.1, r.2))
    | v =>
      let r := getContractName P chain c (pyStr v)
      (.ok r.1, r.2)
  else if strStartsWith value_type "uint" || strStartsWith value_type "int" then
    match value with
    | .vint i => (.ok (commaFmt i), c)
    | v => (.ok (pyStr v), c)
  else if value_type = "bool" then (.ok (pyLower (pyStr value)), c)
  else if strStartsWith value_type "bytes" then
    match value with
    | .vbytes bs => (.ok ("0x" ++ bytesToHex bs), c)
    | v => (.ok (pyStr v), c)
  else if strEndsWith value_type "[]" then
    match value with
    | .vlist elems =>
      (match formatValueList P chain c elems (strDropRight value_type 2) with
       | (.ok ss, c1) => (.ok ("[" ++ joinSep ", " ss ++ "]"), c1)
       | (.error e, c1) => (.error e, c1))
    | .vtuple elems =>
      (match formatValueList P chain c elems (strDropRight value_type 2) with
       | (.ok ss, c1) => (.ok ("[" ++ joinSep ", " ss ++ "]"), c1)
       | (.error e, c1) => (.error e, c1))
    | v => (.ok (pyStr v), c)
  else (.ok (pyStr value), c)

def formatValueList (P : Provider) (chain : String) (c : Cache) (elems : List Value)
    (t : String) : Except Unit (List String) × Cache :=
  match elems with
  | [] => (.ok [], c)
  | v :: vs =>
    match formatValue P chain c v t with
    | (.error e, c1) => (.error e, c1)
    | (.ok s, c1) =>
      match formatValueList P chain c1 vs t with
      | (.ok ss, c2) => (.ok (s :: ss), c2)
      | (.error e, c2) => (.error e, c2)

end

def formatParamsGo (P : Provider) (chain : String) :
    Cache → List DecodedParam → Except Unit (List String) × Cache
  | c, [] => (.ok [], c)
  | c, (n, t, v) :: rest =>
    match formatValue P chain c v t with
    | (.error e, c1) => (.error e, c1)
    | (.ok s, c1) =>
      match formatParamsGo P chain c1 rest with
      | (.ok ss, c2) => (.ok ((n ++ "=" ++ s) :: ss), c2)
      | (.error e, c2) => (.error e, c2)

/-- `format_parameters`. -/
def formatParameters (P : Provider) (chain : String) (c : Cache)
    (params : List DecodedParam) : Except Unit String × Cache :=
  if params.isEmpty then (.ok "", c)
  else
    match formatParamsGo P chain c params with
    | (.ok ss, c1) => (.ok (joinSep ", " ss), c1)
    | (.error e, c1) => (.error e, c1)

/-! ## `wei_to_ether` and the value annotation -/

def decDigitsVal (cs : List Char) : Option Nat :=
  if cs = [] then none
  else cs.foldl (fun acc c =>
    match acc with
    | some a => if '0' ≤ c ∧ c ≤ '9' then some (a * 10 + (c.toNat - 48)) else none
    | none => none) (some 0)

def hexDigitsVal (cs : List Char) : Option Nat :=
  if cs = [] then none
  else cs.foldl (fun acc c =>
    match acc, hexDigitVal c with
    | some a, some d => some (a * 16 + d)
    | _, _ => none) (some 0)

/-- Python `int(s)` (base 10): optional sign and decimal digits.  The
CPython tolerance for surrounding whitespace and digit-group underscores
is not modelled; no input below uses it. -/
def pyIntDec (s : String) : Option Int :=
  match chars s with
  | '-' :: rest => (decDigitsVal rest).map (fun n => -(n : Int))
  | '+' :: rest => (decDigitsVal rest).map (fun n => (n : Int))
  | cs => (decDigitsVal cs).map (fun n => (n : Int))

/-- Python `int(s, 16)`: optional sign, optional `0x`/`0X` marker and hex
digits. -/
def pyIntHex (s : String) : Option Int :=
  let body := fun (cs : List Char) =>
    match cs with
    | '0' :: 'x' :: rest => hexDigitsVal rest
    | '0' :: 'X' :: rest => hexDigitsVal rest
    | cs => hexDigitsVal cs
  match chars s with
  | '-' :: rest => (body rest).map (fun n => -(n : Int))
  | '+' :: rest => (body rest).map (fun n => (n : Int))
  | cs => (body cs).map (fun n => (n : Int))

/-- The integer-parsing branch of `wei_to_ether`: `int(v, 16)` for
`0x`-prefixed values, `int(v)` otherwise. -/
def pyIntOfValue (v : String) : Option Int :=
  if strStartsWith v "0x" then pyIntHex v else pyIntDec v

/-- `wei_to_ether`.  The Python source divides in IEEE-754 binary64; the
model divides exactly in `ℚ`.  The sign of the IEEE quotient always
agrees with the exact sign (the operands are nowhere near the underflow
range), and on every input whose display a theorem below inspects the
IEEE quotient is exact, so the model is faithful where it is used.
`none` models the uncaught `ValueError` from `int()`.  (`mkRat i (10^18)`
is the exact quotient `i / 10^18` in `ℚ`, written with the core
constructor so that it evaluates inside the kernel.) -/
def weiToEther (wei_value : String) : Option ℚ :=
  (pyIntOfValue wei_value).map (fun i => mkRat i (10 ^ 18))

/-- Python `str` on the float `wei / 10**18`, modelled exactly on the
integral range where binary64 renders as `N.0`; other values are
rendered approximately — no theorem below depends on them. -/
def pyFloatStr (q : ℚ) : String :=
  if q.den = 1 ∧ q.num.natAbs < 10 ^ 16 then toString q.num ++ ".0"
  else toString q.num ++ "/" ++ toString q.den

/-- The `value` annotation block of `format_trace_item`: empty unless the
parsed ether value is strictly positive. -/
def valueString (value : String) : Except Unit String :=
  if value ≠ "0x0" ∧ value ≠ "0" then
    match weiToEther value with
    | none => .error ()
    | some e => if 0 < e then .ok ("[value: " ++ pyFloatStr e ++ " Ether] ") else .ok ""
  else .ok ""

/-! ## Trace records, `format_trace_item`, `parse_trace` -/

/-- The `action` object of a trace record; field defaults are the
`.get(..., default)` defaults of the source (`toAddr`, `fromAddr` are the
JSON keys `to`, `from`). -/
structure TraceAction where
  callType : String := ""
  toAddr : String := ""
  fromAddr : String := ""
  value : String := "0x0"
  input : String := ""

/-- The `result` object of a trace record. -/
structure TraceResult where
  output : String := ""
  address : String := ""

/-- One flat trace record (`itemType` is the JSON key `type`). -/
structure TraceItem where
  itemType : String := ""
  action : TraceAction := {}
  result : TraceResult := {}
  traceAddress : List Nat := []

/-- The call label after the CREATE override: `CREATE` for a
`type == "create"` record, else the uppercased `callType`. -/
def recordLabel (it : TraceItem) : String :=
  if it.itemType = "create" then "CREATE" else pyUpper it.action.callType

/-- `format_trace_item`.  `.ok none` is the suppressed-STATICCALL
return; `.error` is an uncaught exception (unparsable `value` or an
invalid address string reaching `to_checksum_address`). -/
def formatTraceItem (P : Provider) (D : Decoder) (chain : String) (c : Cache)
    (it : TraceItem) (level : Nat) (include_static_call : Bool) :
    Except Unit (Option String) × Cache :=
  let value := it.action.value
  let input_data := it.action.input
  let output_data := it.result.output
  let call_type := recordLabel it
  let to_address := if it.itemType = "create" then it.result.address else it.action.toAddr
  if !include_static_call && call_type == "STATICCALL" then (.ok none, c)
  else
    let level_str := strRepeat "  " level
    match valueString value with
    | .error e => (.error e, c)
    | .ok value_str =>
      let r1 := getContractName P chain c to_address
      let r2 := getFunctionName P chain r1.2 to_address input_data
      let r3 := decodeInputData P D chain r2.2 to_address input_data
      let r4 := decodeOutputData P D chain r3.2 to_address input_data output_data
      match formatParameters P chain r4.2 r3.1 with
      | (.error e, c5) => (.error e, c5)
      | (.ok input_str, c5) =>
        match formatParameters P chain c5 r4.1 with
        | (.error e, c6) => (.error e, c6)
        | (.ok output_str, c6) =>
          let function_call := r1.1 ++ "." ++ r2.1 ++ "(" ++ input_str ++ ")"
          let output_part := if output_str ≠ "" then " => (" ++ output_str ++ ")" else " => ()"
          (.ok (some (level_str ++ toString level ++ " [" ++ call_type ++ "] " ++
            value_str ++ function_call ++ output_part)), c6)

/-- The record loop of `parse_trace`: each record is formatted at level
`len(traceAddress)` in input order; a `None` return contributes no line;
an exception aborts the whole render. -/
def parseTraceGo (P : Provider) (D : Decoder) (chain : String)
    (include_static_call : Bool) : Cache → List TraceItem → Except Unit (List String) × Cache
  | c, [] => (.ok [], c)
  | c, it :: rest =>
    match formatTraceItem P D chain c it it.traceAddress.length include_static_call with
    | (.error e, c1) => (.error e, c1)
    | (.ok none, c1) => parseTraceGo P D chain include_static_call c1 rest
    | (.ok (some line), c1) =>
      match parseTraceGo P D chain include_static_call c1 rest with
      | (.ok ls, c2) => (.ok (line :: ls), c2)
      | (.error e, c2) => (.error e, c2)

/-- `parse_trace` on the record list of the `result` field.  The very
first record's `from` address, when nonempty, contributes a leading
`[Sender]` line before the loop formats the records in input order. -/
def parseTrace (P : Provider) (D : Decoder) (chain : String) (c : Cache)
    (records : List TraceItem) (include_static_call : Bool) :
    Except Unit (List String) × Cache :=
  match records with
  | [] => (.ok ["没有找到 trace 数据"], c)
  | first :: _ =>
    let from_address := first.action.fromAddr
    let sr :=
      if from_address ≠ "" then
        let r := getContractName P chain c from_address
        (["[Sender] " ++ r.1], r.2)
      else (([] : List String), c)
    match parseTraceGo P D chain include_static_call sr.2 records with
    | (.ok ls, c2) => (.ok (sr.1 ++ ls), c2)
    | (.error e, c2) => (.error e, c2)

/-! ## Dictionary lemmas -/

theorem dlookup_dictInsert_self {β : Type} (d : List (String × β)) (k : String) (v : β) :
    dlookup (dictInsert d k v) k = some v := by
  induction d with
  | nil => simp [dictInsert, dlookup]
  | cons p rest ih =>
    obtain ⟨k1, v1⟩ := p
    by_cases h : k1 = k
    · simp [dictInsert, dlookup, h]
    · simp [dictInsert, dlookup, h, ih]

theorem dlookup_dictInsert_ne {β : Type} (d : List (String × β)) (k key : String) (v : β)
    (h : k ≠ key) : dlookup (dictInsert d k v) key = dlookup d key := by
  induction d with
  | nil => simp [dictInsert, dlookup, h]
  | cons p rest ih =>
    obtain ⟨k1, v1⟩ := p
    by_cases h1 : k1 = k
    · subst h1
      simp [dictInsert, dlookup, h]
    · simp only [dictInsert, if_neg h1, dlookup]
      by_cases h2 : k1 = key <;> simp [h2, ih]

/-! ## Claim C5 -/

/-- C5: absent input data (`""`) or exactly `"0x"` makes
`get_function_signature` and `get_function_name` return the `<empty>`
sentinel and `decode_input_data` return the empty parameter list, with
the cache untouched; the returned-value types show no exception channel
because none of these paths can raise. -/
theorem claim_C5 (P : Provider) (D : Decoder) (chain : String) (c : Cache) (address : String) :
    getFunctionSignature "" = "<empty>" ∧
    getFunctionSignature "0x" = "<empty>" ∧
    getFunctionName P chain c address "" = ("<empty>", c) ∧
    getFunctionName P chain c address "0x" = ("<empty>", c) ∧
    decodeInputData P D chain c address "" = ([], c) ∧
    decodeInputData P D chain c address "0x" = ([], c) := by
  refine ⟨rfl, rfl, rfl, rfl, rfl, rfl⟩

/-! ## Claim C1 -/

/-- C1 (amended): an external call happens only on a genuine cache miss,
and after a resolution attempt in which the provider answered (verified
or unverified contract alike), a later `get_contract_info` call for the
same address is answered from `contract_cache`, with the same result and
no external call.  (After a FAILED attempt nothing is cached; see the
counterexample.) -/
theorem claim_C1 (P : Provider) (chain : String) (c : Cache) (a : String)
    (d : ProviderData) (hp : P ((dlookup chain_ids chain).getD 1) (pyLower a) = some d) :
    getContractInfo P chain ((getContractInfo P chain c a).2.1) a =
      ((getContractInfo P chain c a).1, (getContractInfo P chain c a).2.1, false) ∧
    ((getContractInfo P chain c a).2.2 = true → dlookup c (pyLower a) = none) := by
  unfold getContractInfo
  cases hc : dlookup c (pyLower a) with
  | some v => simp [hc]
  | none =>
    by_cases hv : (!strStartsWith (pyLower a) "0x" || strLen (pyLower a) != 42) = true
    · simp [hc, hv]
    · simp only [hc, hv, if_false, Bool.false_eq_true, if_neg, hp]
      by_cases hn : d.contractName = ""
      · simp [hn, dlookup_dictInsert_self, hc, hv]
      · simp [hn, dlookup_dictInsert_self, hc, hv]

/-- Closed instantiation of `claim_C1` discharging its hypothesis. -/
theorem claim_C1_witness :
    getContractInfo (fun _ _ => some { contractName := "" }) "ETH"
        ((getContractInfo (fun _ _ => some { contractName := "" }) "ETH" []
          "0xAAAAAAAAAAAAAAAAAAAAAAAAAAAAAAAAAAAAAAAA").2.1)
        "0xAAAAAAAAAAAAAAAAAAAAAAAAAAAAAAAAAAAAAAAA" =
      ((getContractInfo (fun _ _ => some { contractName := "" }) "ETH" []
          "0xAAAAAAAAAAAAAAAAAAAAAAAAAAAAAAAAAAAAAAAA").1,
       (getContractInfo (fun _ _ => some { contractName := "" }) "ETH" []
          "0xAAAAAAAAAAAAAAAAAAAAAAAAAAAAAAAAAAAAAAAA").2.1, false) :=
  (claim_C1 (fun _ _ => some { contractName := "" }) "ETH" []
    "0xAAAAAAAAAAAAAAAAAAAAAAAAAAAAAAAAAAAAAAAA" { contractName := "" } rfl).1

/-- C1 counterexample: with a provider whose lookup FAILS, the first
`get_contract_info` call performs an external call, caches nothing, and
a second call for the same address performs the external call again —
refuting the claim that every completed attempt (including failures) is
afterwards answered from the cache. -/
theorem claim_C1_counterexample :
    (getContractInfo (fun _ _ => none) "ETH" []
      "0xaaaaaaaaaaaaaaaaaaaaaaaaaaaaaaaaaaaaaaaa").2.2 = true ∧
    (getContractInfo (fun _ _ => none) "ETH"
      ((getContractInfo (fun _ _ => none) "ETH" []
        "0xaaaaaaaaaaaaaaaaaaaaaaaaaaaaaaaaaaaaaaaa").2.1)
      "0xaaaaaaaaaaaaaaaaaaaaaaaaaaaaaaaaaaaaaaaa").2.2 = true := by
  refine ⟨rfl, rfl⟩

/-! ## Claim C2 -/

/-- The ERC-20 `transfer(address,uint256)` ABI entry. -/
def transferItem : AbiItem :=
  ⟨"function", "transfer", [⟨"address", "to"⟩, ⟨"uint256", "amount"⟩], []⟩

/-- C2: for function entries the stored selector is `0x` followed by the
first eight hex characters of the Keccak-256 of the canonical signature
built from the input type strings alone; selector computation is
deterministic; `transfer(address,uint256)` yields `0xa9059cbb`;
non-function entries contribute nothing; a later entry with the same
selector overwrites any earlier one. -/
theorem claim_C2 :
    (∀ item : AbiItem, (functionInfoOf item).signature =
      "0x" ++ strTake (keccakHexOfString
        (item.name ++ "(" ++ joinSep "," (item.inputs.map (fun p => p.ty)) ++ ")")) 8) ∧
    (∀ abi : List AbiItem, parse_abi abi = parse_abi abi) ∧
    ((functionInfoOf transferItem).signature = "0xa9059cbb") ∧
    (∀ (l1 l2 : List AbiItem) (item : AbiItem), item.ty ≠ "function" →
      parse_abi (l1 ++ item :: l2) = parse_abi (l1 ++ l2)) ∧
    (∀ (abi : List AbiItem) (item : AbiItem), item.ty = "function" →
      dlookup (parse_abi (abi ++ [item])) (functionInfoOf item).signature =
        some (functionInfoOf item)) := by
  refine ⟨fun item => rfl, fun abi => rfl, by decide, ?_, ?_⟩
  · intro l1 l2 item h
    simp only [parse_abi, List.foldl_append, List.foldl_cons, parseAbiStep, if_neg h]
  · intro abi item h
    simp only [parse_abi, List.foldl_append, List.foldl_cons, List.foldl_nil,
      parseAbiStep, if_pos h]
    exact dlookup_dictInsert_self _ _ _

/-- An event entry, ignored by `parse_abi`. -/
def eventItem : AbiItem := ⟨"event", "Transfer", [], []⟩

/-- A nullary function entry, used to exercise last-wins insertion. -/
def fItem : AbiItem := ⟨"function", "f", [], []⟩

/-- Closed instantiation of `claim_C2` discharging its hypotheses: a
non-function (event) entry is dropped, and of two function entries with
the same selector the later one is the one stored. -/
theorem claim_C2_witness :
    parse_abi [eventItem] = [] ∧
    dlookup (parse_abi [fItem, fItem]) (functionInfoOf fItem).signature =
      some (functionInfoOf fItem) := by
  constructor
  · exact claim_C2.2.2.2.1 [] [] eventItem (by decide)
  · exact claim_C2.2.2.2.2 [fItem] fItem rfl

/-! ## Renderer lemmas shared by the trace claims -/

/-- A provider that always fails, and a decoder that always raises:
the simplest concrete collaborators for witnesses. -/
def nullProvider : Provider := fun _ _ => none

def nullDecoder : Decoder := fun _ _ => none

/-- A bare STATICCALL record. -/
def staticItem : TraceItem := { action := { callType := "staticcall" } }

/-- A bare CALL record. -/
def callItem : TraceItem := { action := { callType := "call" } }

theorem formatTraceItem_static_false (P : Provider) (D : Decoder) (chain : String)
    (c : Cache) (it : TraceItem) (level : Nat) (h : recordLabel it = "STATICCALL") :
    formatTraceItem P D chain c it level false = (.ok none, c) := by
  unfold formatTraceItem recordLabel at *
  simp [h]

theorem formatTraceItem_inc_irrel (P : Provider) (D : Decoder) (chain : String)
    (c : Cache) (it : TraceItem) (level : Nat) (h : recordLabel it ≠ "STATICCALL") :
    formatTraceItem P D chain c it level false = formatTraceItem P D chain c it level true := by
  unfold formatTraceItem recordLabel at *
  simp [h]

theorem formatTraceItem_true_ne_none (P : Provider) (D : Decoder) (chain : String)
    (c : Cache) (it : TraceItem) (level : Nat) :
    (formatTraceItem P D chain c it level true).1 ≠ .ok none := by
  unfold formatTraceItem
  simp only [Bool.not_true, Bool.false_and, Bool.false_eq_true, if_false]
  split
  · simp
  · split
    · simp
    · split
      · simp
      · split <;> simp

theorem parseTraceGo_true_length (P : Provider) (D : Decoder) (chain : String)
    (items : List TraceItem) :
    ∀ (c : Cache) (ls : List String) (c2 : Cache),
      parseTraceGo P D chain true c items = (.ok ls, c2) → ls.length = items.length := by
  induction items with
  | nil =>
    intro c ls c2 h
    simp only [parseTraceGo, Prod.mk.injEq, Except.ok.injEq] at h
    simp [← h.1]
  | cons it rest ih =>
    intro c ls c2 h
    simp only [parseTraceGo] at h
    split at h
    · cases h
    · rename_i c1 heq
      exact absurd (by rw [heq]) (formatTraceItem_true_ne_none P D chain c it it.traceAddress.length)
    · rename_i line c1 heq
      split at h
      · rename_i ls2 c3 hgo
        cases h
        simpa using ih _ _ _ hgo
      · cases h

/-- Every emitted line decomposes as indentation, level number, label,
value annotation, call and output parts, exactly as assembled in the
source. -/
theorem formatTraceItem_decomp (P : Provider) (D : Decoder) (chain : String)
    (c : Cache) (it : TraceItem) (level : Nat) (inc : Bool) (line : String) (c' : Cache)
    (h : formatTraceItem P D chain c it level inc = (.ok (some line), c')) :
    ∃ vs fc op, valueString it.action.value = .ok vs ∧
      line = strRepeat "  " level ++ toString level ++ " [" ++ recordLabel it ++ "] " ++
        vs ++ fc ++ op := by
  simp only [formatTraceItem] at h
  split at h
  · cases h
  · split at h
    · cases h
    · rename_i vs hvs
      split at h
      · cases h
      · rename_i input_str c5 hin
        split at h
        · cases h
        · rename_i output_str c6 hout
          split at h <;> cases h <;> exact ⟨vs, _, _, hvs, rfl⟩

/-! ## Claim C3 -/

/-- C3: with `includeStaticCall = false` a STATICCALL-labelled record is
suppressed entirely (no line, cache untouched) while every other record
renders exactly as it does with the flag true (hence identical
indentation); with the flag true no record is suppressed and the loop
emits exactly one line per record. -/
theorem claim_C3 (P : Provider) (D : Decoder) (chain : String) (c : Cache)
    (it : TraceItem) (level : Nat) :
    (recordLabel it = "STATICCALL" →
      formatTraceItem P D chain c it level false = (.ok none, c)) ∧
    (recordLabel it ≠ "STATICCALL" →
      formatTraceItem P D chain c it level false = formatTraceItem P D chain c it level true) ∧
    (formatTraceItem P D chain c it level true).1 ≠ .ok none ∧
    (∀ (items : List TraceItem) (c0 : Cache) (ls : List String) (c2 : Cache),
      parseTraceGo P D chain true c0 items = (.ok ls, c2) → ls.length = items.length) :=
  ⟨formatTraceItem_static_false P D chain c it level,
   formatTraceItem_inc_irrel P D chain c it level,
   formatTraceItem_true_ne_none P D chain c it level,
   fun items c0 ls c2 h => parseTraceGo_true_length P D chain items c0 ls c2 h⟩

/-- Closed instantiation of `claim_C3`: the STATICCALL record is
suppressed with the flag false, a CALL record renders identically under
both flags, and a one-record list renders to exactly one line with the
flag true. -/
theorem claim_C3_witness :
    formatTraceItem nullProvider nullDecoder "BSC" [] staticItem 0 false = (.ok none, []) ∧
    formatTraceItem nullProvider nullDecoder "BSC" [] callItem 0 false =
      formatTraceItem nullProvider nullDecoder "BSC" [] callItem 0 true ∧
    (["0 [STATICCALL] .<empty>() => ()"] : List String).length = [staticItem].length := by
  refine ⟨(claim_C3 nullProvider nullDecoder "BSC" [] staticItem 0).1 (by decide),
    (claim_C3 nullProvider nullDecoder "BSC" [] callItem 0).2.1 (by decide),
    (claim_C3 nullProvider nullDecoder "BSC" [] staticItem 0).2.2.2 [staticItem] [] _ [] rfl⟩

/-! ## Claim C4 -/

/-- C4: the loop formats each record at level `len(traceAddress)` and
prepends its line (when emitted) to the lines of the remaining records,
so emission order is input order and the indentation of an emitted line
is the length of the record's own address path: every emitted line
starts with `2*level` spaces followed by the level number. -/
theorem claim_C4 (P : Provider) (D : Decoder) (chain : String) (c : Cache) (inc : Bool) :
    (∀ (it : TraceItem) (rest : List TraceItem),
      parseTraceGo P D chain inc c (it :: rest) =
        match formatTraceItem P D chain c it it.traceAddress.length inc with
        | (.error e, c1) => (.error e, c1)
        | (.ok none, c1) => parseTraceGo P D chain inc c1 rest
        | (.ok (some line), c1) =>
          match parseTraceGo P D chain inc c1 rest with
          | (.ok ls, c2) => (.ok (line :: ls), c2)
          | (.error e, c2) => (.error e, c2)) ∧
    (∀ (it : TraceItem) (level : Nat) (line : String) (c' : Cache),
      formatTraceItem P D chain c it level inc = (.ok (some line), c') →
      ∃ tail, line = strRepeat "  " level ++ (toString level ++ tail)) := by
  constructor
  · intro it rest
    rfl
  · intro it level line c' h
    obtain ⟨vs, fc, op, _, hline⟩ := formatTraceItem_decomp P D chain c it level inc line c' h
    refine ⟨" [" ++ recordLabel it ++ "] " ++ vs ++ fc ++ op, ?_⟩
    simp only [hline, String.append_assoc]

/-- A STATICCALL record two levels deep in the call tree. -/
def item02 : TraceItem := { action := { callType := "staticcall" }, traceAddress := [0, 2] }

/-- Closed instantiation of `claim_C4`: the record with
`traceAddress = [0, 2]` renders at indentation level 2 — its line starts
with four spaces and the digit 2. -/
theorem claim_C4_witness :
    ∃ tail, "    2 [STATICCALL] .<empty>() => ()" = strRepeat "  " 2 ++ (toString 2 ++ tail) :=
  (claim_C4 nullProvider nullDecoder "BSC" [] true).2 item02 2
    "    2 [STATICCALL] .<empty>() => ()" [] rfl

/-! ## Claim C10 -/

/-- C10: whenever the first record carries a nonempty `from` address and
the render completes, the output begins with the `[Sender]` line; and
when additionally the first record is a suppressed STATICCALL
(`includeStaticCall = false`), the render is the sender line followed by
the lines of the REMAINING records only, so the sender line is not
followed by a line for the first record. -/
theorem claim_C10 (P : Provider) (D : Decoder) (chain : String) (c : Cache)
    (first : TraceItem) (rest : List TraceItem) (inc : Bool)
    (h : first.action.fromAddr ≠ "") :
    (∀ ls c2, parseTrace P D chain c (first :: rest) inc = (.ok ls, c2) →
      ∃ ls2, ls = ("[Sender] " ++ (getContractName P chain c first.action.fromAddr).1) :: ls2) ∧
    (recordLabel first = "STATICCALL" → inc = false →
      parseTrace P D chain c (first :: rest) inc =
        (match parseTraceGo P D chain false
            ((getContractName P chain c first.action.fromAddr).2) rest with
         | (.ok ls, c2) =>
            (.ok (("[Sender] " ++ (getContractName P chain c first.action.fromAddr).1) :: ls), c2)
         | (.error e, c2) => (.error e, c2))) := by
  constructor
  · intro ls c2 hrun
    unfold parseTrace at hrun
    simp only [if_pos h] at hrun
    split at hrun
    · rename_i ls1 c3 hgo
      cases hrun
      exact ⟨ls1, rfl⟩
    · cases hrun
  · intro hlabel hinc
    subst hinc
    unfold parseTrace
    simp only [if_pos h, parseTraceGo,
      formatTraceItem_static_false P D chain _ first first.traceAddress.length hlabel]
    split <;> rfl

/-- A STATICCALL record carrying a `from` address. -/
def sendStaticItem : TraceItem :=
  { action := { callType := "staticcall", fromAddr := "0xaaaaaaaaaaaaaaaaaaaaaaaaaaaaaaaaaaaaaaaa" } }

/-- Closed instantiation of `claim_C10`: a one-record trace whose only
record is a suppressed STATICCALL still renders its `[Sender]` line, and
nothing follows it. -/
theorem claim_C10_witness :
    parseTrace nullProvider nullDecoder "BSC" [] [sendStaticItem] false =
      (.ok ["[Sender] 0xaaaaaaaaaaaaaaaaaaaaaaaaaaaaaaaaaaaaaaaa"], []) := by
  have h := (claim_C10 nullProvider nullDecoder "BSC" [] sendStaticItem [] false
    (by decide)).2 (by decide) rfl
  simpa using h

/-! ## Claim C6 -/

/-- C6: no failure mode of parameter decoding can abort the render —
an unresolved contract, an unknown selector, malformed parameter hex and
a raising `eth_abi.decode` each yield the empty parameter list (the
functions have no exception channel at all); with a decoder that always
raises no parameters are ever produced, for outputs as well; and the
empty parameter list formats to the empty string without touching the
cache or raising, so a failed decode leaves nothing that could abort
`format_trace_item`. -/
theorem claim_C6 (P : Provider) (D : Decoder) (chain : String) (c : Cache)
    (address input_data output_data : String) :
    (input_data ≠ "" → input_data ≠ "0x" →
      (getContractInfo P chain c address).1 = none →
      decodeInputData P D chain c address input_data =
        ([], (getContractInfo P chain c address).2.1)) ∧
    (∀ info, input_data ≠ "" → input_data ≠ "0x" →
      (getContractInfo P chain c address).1 = some info →
      dlookup info.functions (getFunctionSignature input_data) = none →
      decodeInputData P D chain c address input_data =
        ([], (getContractInfo P chain c address).2.1)) ∧
    (∀ info fi, input_data ≠ "" → input_data ≠ "0x" →
      (getContractInfo P chain c address).1 = some info →
      dlookup info.functions (getFunctionSignature input_data) = some fi →
      bytesFromHex (strDrop input_data 10) = none →
      decodeInputData P D chain c address input_data =
        ([], (getContractInfo P chain c address).2.1)) ∧
    (∀ info fi bs, input_data ≠ "" → input_data ≠ "0x" →
      (getContractInfo P chain c address).1 = some info →
      dlookup info.functions (getFunctionSignature input_data) = some fi →
      bytesFromHex (strDrop input_data 10) = some bs →
      D fi.input_types bs = none →
      decodeInputData P D chain c address input_data =
        ([], (getContractInfo P chain c address).2.1)) ∧
    (decodeInputData P (fun _ _ => none) chain c address input_data).1 = [] ∧
    (decodeOutputData P (fun _ _ => none) chain c address input_data output_data).1 = [] ∧
    formatParameters P chain c [] = (.ok "", c) := by
  have hne : ∀ (x y : String), x ≠ y → (x = y) = False := fun x y h => by simp [h]
  refine ⟨?_, ?_, ?_, ?_, ?_, ?_, rfl⟩
  · intro h1 h2 hci
    simp [decodeInputData, hne _ _ h1, hne _ _ h2, hci]
  · intro info h1 h2 hci hsel
    simp [decodeInputData, hne _ _ h1, hne _ _ h2, hci, hsel]
  · intro info fi h1 h2 hci hsel hhex
    by_cases hp : strDrop input_data 10 = "" ∨ fi.input_types = []
    · simp [decodeInputData, hne _ _ h1, hne _ _ h2, hci, hsel, hp]
    · simp [decodeInputData, hne _ _ h1, hne _ _ h2, hci, hsel, hp, hhex]
  · intro info fi bs h1 h2 hci hsel hhex hd
    by_cases hp : strDrop input_data 10 = "" ∨ fi.input_types = []
    · simp [decodeInputData, hne _ _ h1, hne _ _ h2, hci, hsel, hp]
    · simp [decodeInputData, hne _ _ h1, hne _ _ h2, hci, hsel, hp, hhex, hd]
  · by_cases h0 : input_data = "" ∨ input_data = "0x"
    · simp [decodeInputData, h0]
    · simp only [decodeInputData, if_neg h0]
      cases hci : (getContractInfo P chain c address).1 with
      | none => simp
      | some info =>
        simp only
        cases hsel : dlookup info.functions (getFunctionSignature input_data) with
        | none => simp
        | some fi =>
          simp only
          by_cases hp : strDrop input_data 10 = "" ∨ fi.input_types = []
          · simp [hp]
          · simp only [if_neg hp]
            cases hhex : bytesFromHex (strDrop input_data 10) with
            | none => simp
            | some bs => simp
  · by_cases h0 : output_data = "" ∨ output_data = "0x"
    · simp [decodeOutputData, h0]
    · simp only [decodeOutputData, if_neg h0]
      cases hci : (getContractInfo P chain c address).1 with
      | none => simp
      | some info =>
        simp only
        cases hsel : dlookup info.functions (getFunctionSignature input_data) with
        | none => simp
        | some fi =>
          simp only
          by_cases hp : fi.output_types = []
          · simp [hp]
          · simp only [if_neg hp]
            cases hhex : bytesFromHex (strDrop output_data 2) with
            | none => simp
            | some bs => simp

/-- Closed instantiation of `claim_C6`: decoding call data against an
unresolved contract yields no parameters and no exception. -/
theorem claim_C6_witness :
    decodeInputData nullProvider nullDecoder "BSC" []
      "0xbbbbbbbbbbbbbbbbbbbbbbbbbbbbbbbbbbbbbbbb" "0xa9059cbb00" = ([], []) :=
  (claim_C6 nullProvider nullDecoder "BSC" []
    "0xbbbbbbbbbbbbbbbbbbbbbbbbbbbbbbbbbbbbbbbb" "0xa9059cbb00" "").1
    (by decide) (by decide) rfl

/-! ## Claim C9 -/

deriving instance DecidableEq for Except

theorem value_annotation_ne_empty (s : String) : "[value: " ++ s ++ " Ether] " ≠ "" := by
  intro he
  have hd := congrArg String.data he
  rw [String.data_append, String.data_append,
    show ("" : String).data = [] from rfl] at hd
  have h1 := (List.append_eq_nil.mp hd).1
  have h2 := (List.append_eq_nil.mp h1).1
  exact absurd h2 (by decide)

theorem qdiv18_pos (i : Int) : (0 : ℚ) < (i : ℚ) / 10 ^ 18 ↔ 0 < i := by
  rw [lt_div_iff₀ (by norm_num : (0 : ℚ) < 10 ^ 18)]
  simp

/-- C9: the `[value: ...]` prefix of a rendered line is present exactly
when the `value` field — parsed as hex when `0x`-prefixed, decimal
otherwise — is strictly positive after the fixed `10^18` wei-to-ether
scaling; `"0x0"` yields no prefix and the hex encoding of `10^18` wei
yields exactly `[value: 1.0 Ether] `; every emitted line carries this
value component right after its label. -/
theorem claim_C9 (P : Provider) (D : Decoder) (chain : String) (c : Cache) :
    (∀ v i, pyIntOfValue v = some i → ((valueString v = .ok "") ↔ ¬ 0 < i)) ∧
    (∀ v i, pyIntOfValue v = some i → 0 < i →
      valueString v = .ok ("[value: " ++ pyFloatStr ((i : ℚ) / 10 ^ 18) ++ " Ether] ")) ∧
    valueString "0x0" = .ok "" ∧
    valueString "0xde0b6b3a7640000" = .ok "[value: 1.0 Ether] " ∧
    (∀ (it : TraceItem) (level : Nat) (inc : Bool) (line : String) (c' : Cache),
      formatTraceItem P D chain c it level inc = (.ok (some line), c') →
      ∃ vs fc op, valueString it.action.value = .ok vs ∧
        line = strRepeat "  " level ++ toString level ++ " [" ++ recordLabel it ++ "] " ++
          vs ++ fc ++ op) := by
  have key : ∀ v i, pyIntOfValue v = some i → v ≠ "0x0" ∧ v ≠ "0" →
      valueString v = (if 0 < i then
        .ok ("[value: " ++ pyFloatStr ((i : ℚ) / 10 ^ 18) ++ " Ether] ") else .ok "") := by
    intro v i hp h0
    have hmk : mkRat i (10 ^ 18) = (i : ℚ) / 10 ^ 18 := by
      rw [Rat.mkRat_eq_div]
      norm_num
    have hw : weiToEther v = some ((i : ℚ) / 10 ^ 18) := by
      rw [weiToEther, hp, Option.map_some', hmk]
    rw [valueString, if_pos h0, hw]
    dsimp only
    by_cases hpos : 0 < i
    · rw [if_pos ((qdiv18_pos i).mpr hpos), if_pos hpos]
    · rw [if_neg (fun hq => hpos ((qdiv18_pos i).mp hq)), if_neg hpos]
  refine ⟨?_, ?_, rfl, by decide, fun it level inc line c' h =>
    formatTraceItem_decomp P D chain c it level inc line c' h⟩
  · intro v i hp
    by_cases h0 : v ≠ "0x0" ∧ v ≠ "0"
    · rw [key v i hp h0]
      by_cases hpos : 0 < i
      · rw [if_pos hpos]
        constructor
        · intro he
          injection he with hs
          exact absurd hs (value_annotation_ne_empty _)
        · intro hn
          exact absurd hpos hn
      · rw [if_neg hpos]
        simp [hpos]
    · have hv : v = "0x0" ∨ v = "0" := by
        by_cases ha : v = "0x0"
        · exact Or.inl ha
        · by_cases hb : v = "0"
          · exact Or.inr hb
          · exact absurd ⟨ha, hb⟩ h0
      have hi : i = 0 := by
        rcases hv with hv | hv <;> subst hv
        · rw [show pyIntOfValue "0x0" = some 0 from rfl] at hp
          injection hp with h
          omega
        · rw [show pyIntOfValue "0" = some 0 from rfl] at hp
          injection hp with h
          omega
      subst hi
      have hval : valueString v = .ok "" := by
        rcases hv with hv | hv <;> subst hv <;> rfl
      simp [hval]
  · intro v i hp hpos
    have h0 : v ≠ "0x0" ∧ v ≠ "0" := by
      refine ⟨fun hv => ?_, fun hv => ?_⟩ <;> subst hv
      · rw [show pyIntOfValue "0x0" = some 0 from rfl] at hp
        injection hp with h
        omega
      · rw [show pyIntOfValue "0" = some 0 from rfl] at hp
        injection hp with h
        omega
    rw [key v i hp h0, if_pos hpos]

/-- Closed instantiation of `claim_C9`: a small positive value gets the
prefix, and the concrete render of a zero-value record carries an empty
value component. -/
theorem claim_C9_witness :
    valueString "0x2" = .ok ("[value: " ++ pyFloatStr ((2 : ℚ) / 10 ^ 18) ++ " Ether] ") ∧
    (∃ vs fc op, valueString staticItem.action.value = .ok vs ∧
      "0 [STATICCALL] .<empty>() => ()" =
        strRepeat "  " 0 ++ toString 0 ++ " [" ++ recordLabel staticItem ++ "] " ++
          vs ++ fc ++ op) := by
  constructor
  · exact (claim_C9 nullProvider nullDecoder "BSC" []).2.1 "0x2" 2 rfl (by decide)
  · exact (claim_C9 nullProvider nullDecoder "BSC" []).2.2.2.2 staticItem 0 true _ [] rfl

/-! ## Pure views of resolution and formatting

`contract_cache` entries are only ever written by `get_contract_info`,
and what it writes for a key is a function of the provider alone.  On
caches whose entries all agree with that function (`CacheGood` — the
empty cache trivially does, and every operation preserves it), lookups
and value formatting compute cache-independent results, which is what
lets the array-formatting equation of the spec be stated at one fixed
cache. -/

/-- What a cache miss on (already lower-cased) `address` resolves to —
the cache-free core of `get_contract_info`. -/
def pureResolve (P : Provider) (chain : String) (address : String) : Option ContractInfo :=
  if !(strStartsWith address "0x") || strLen address != 42 then none
  else
    match P ((dlookup chain_ids chain).getD 1) address with
    | none => none
    | some data =>
      if data.contractName = "" then none
      else
        some ⟨address, data.contractName,
          (if data.abiStr ≠ "" ∧ data.abiStr ≠ "Contract source code not verified" then
            match data.abiParsed with
            | some abi => parse_abi abi
            | none => []
          else []), data.abiStr⟩

/-- Every cache entry is the provider-derived resolution of its key. -/
def CacheGood (P : Provider) (chain : String) (c : Cache) : Prop :=
  ∀ k v, dlookup c k = some v → v = pureResolve P chain k

theorem cacheGood_nil (P : Provider) (chain : String) : CacheGood P chain [] := by
  intro k v h
  cases h

theorem getContractInfo_pure (P : Provider) (chain : String) (c : Cache) (a : String)
    (hg : CacheGood P chain c) :
    (getContractInfo P chain c a).1 = pureResolve P chain (pyLower a) ∧
    CacheGood P chain (getContractInfo P chain c a).2.1 := by
  cases hc : dlookup c (pyLower a) with
  | some v =>
    constructor
    · have h1 : (getContractInfo P chain c a).1 = v := by simp [getContractInfo, hc]
      rw [h1]
      exact hg _ _ hc
    · have h2 : (getContractInfo P chain c a).2.1 = c := by simp [getContractInfo, hc]
      rw [h2]
      exact hg
  | none =>
    by_cases hv : (!strStartsWith (pyLower a) "0x" || strLen (pyLower a) != 42) = true
    · constructor
      · simp [getContractInfo, pureResolve, hc, hv]
      · have h2 : (getContractInfo P chain c a).2.1 = c := by simp [getContractInfo, hc, hv]
        rw [h2]
        exact hg
    · cases hp : P ((dlookup chain_ids chain).getD 1) (pyLower a) with
      | none =>
        constructor
        · simp [getContractInfo, pureResolve, hc, hv, hp]
        · have h2 : (getContractInfo P chain c a).2.1 = c := by
            simp [getContractInfo, hc, hv, hp]
          rw [h2]
          exact hg
      | some data =>
        have hcc : (getContractInfo P chain c a).2.1 =
            dictInsert c (pyLower a) (pureResolve P chain (pyLower a)) := by
          by_cases hn : data.contractName = "" <;>
            simp [getContractInfo, pureResolve, hc, hv, hp, hn]
        constructor
        · by_cases hn : data.contractName = "" <;>
            simp [getContractInfo, pureResolve, hc, hv, hp, hn]
        · rw [hcc]
          intro k v hkv
          by_cases hk : pyLower a = k
          · subst hk
            rw [dlookup_dictInsert_self] at hkv
            cases hkv
            rfl
          · rw [dlookup_dictInsert_ne _ _ _ _ hk] at hkv
            exact hg _ _ hkv

/-- The cache-free value of `get_contract_name`. -/
def pureName (P : Provider) (chain : String) (a : String) : String :=
  match pureResolve P chain (pyLower a) with
  | some info => info.name
  | none => a

theorem getContractName_pure (P : Provider) (chain : String) (c : Cache) (a : String)
    (hg : CacheGood P chain c) :
    (getContractName P chain c a).1 = pureName P chain a ∧
    CacheGood P chain (getContractName P chain c a).2 := by
  obtain ⟨h1, h2⟩ := getContractInfo_pure P chain c a hg
  unfold getContractName pureName
  cases hri : getContractInfo P chain c a with
  | mk r cb =>
    rw [hri] at h1 h2
    cases r with
    | none => exact ⟨by rw [← h1], h2⟩
    | some info => exact ⟨by rw [← h1], h2⟩

mutual

/-- The cache-free value of `format_value` (the formatted string is a
function of the provider alone once the cache is provider-derived). -/
def pureFormatValue (P : Provider) (chain : String) (value : Value) (value_type : String) :
    Except Unit String :=
  if value_type = "address" then
    match value with
    | .vstr s =>
      (match toChecksumAddress s with
       | none => .error ()
       | some addr_str => .ok (pureName P chain addr_str))
    | v => .ok (pureName P chain (pyStr v))
  else if strStartsWith value_type "uint" || strStartsWith value_type "int" then
    match value with
    | .vint i => .ok (commaFmt i)
    | v => .ok (pyStr v)
  else if value_type = "bool" then .ok (pyLower (pyStr value))
  else if strStartsWith value_type "bytes" then
    match value with
    | .vbytes bs => .ok ("0x" ++ bytesToHex bs)
    | v => .ok (pyStr v)
  else if strEndsWith value_type "[]" then
    match value with
    | .vlist elems =>
      (match pureFormatValueList P chain elems (strDropRight value_type 2) with
       | .ok ss => .ok ("[" ++ joinSep ", " ss ++ "]")
       | .error e => .error e)
    | .vtuple elems =>
      (match pureFormatValueList P chain elems (strDropRight value_type 2) with
       | .ok ss => .ok ("[" ++ joinSep ", " ss ++ "]")
       | .error e => .error e)
    | v => .ok (pyStr v)
  else .ok (pyStr value)

def pureFormatValueList (P : Provider) (chain : String) (elems : List Value) (t : String) :
    Except Unit (List String) :=
  match elems with
  | [] => .ok []
  | v :: vs =>
    match pureFormatValue P chain v t with
    | .error e => .error e
    | .ok s =>
      match pureFormatValueList P chain vs t with
      | .ok ss => .ok (s :: ss)
      | .error e => .error e

end

/-- On a provider-derived cache, `format_value` computes the cache-free
string and leaves the cache provider-derived, by strong induction on the
size of the value (the list clause rides along for the mutual
recursion). -/
theorem formatValue_pure_sized (P : Provider) (chain : String) :
    ∀ n : Nat,
      (∀ (v : Value) (t : String) (c : Cache), sizeOf v ≤ n → CacheGood P chain c →
        (formatValue P chain c v t).1 = pureFormatValue P chain v t ∧
        CacheGood P chain (formatValue P chain c v t).2) ∧
      (∀ (vs : List Value) (t : String) (c : Cache), sizeOf vs ≤ n → CacheGood P chain c →
        (formatValueList P chain c vs t).1 = pureFormatValueList P chain vs t ∧
        CacheGood P chain (formatValueList P chain c vs t).2) := by
  intro n
  induction n using Nat.strong_induction_on with
  | _ n ih =>
    constructor
    · intro v t c hsz hg
      by_cases ht : t = "address"
      · subst ht
        cases v with
        | vstr s =>
          cases hcs : toChecksumAddress s with
          | none =>
            have hv : formatValue P chain c (.vstr s) "address" = (.error (), c) := by
              simp [formatValue, hcs]
            have hp : pureFormatValue P chain (.vstr s) "address" = .error () := by
              simp [pureFormatValue, hcs]
            rw [hv, hp]
            exact ⟨rfl, hg⟩
          | some addr_str =>
            obtain ⟨hn1, hn2⟩ := getContractName_pure P chain c addr_str hg
            have hv : formatValue P chain c (.vstr s) "address" =
                (.ok (getContractName P chain c addr_str).1,
                 (getContractName P chain c addr_str).2) := by
              simp [formatValue, hcs]
            have hp : pureFormatValue P chain (.vstr s) "address" =
                .ok (pureName P chain addr_str) := by
              simp [pureFormatValue, hcs]
            rw [hv, hp]
            exact ⟨by rw [hn1], hn2⟩
        | vint i =>
          obtain ⟨hn1, hn2⟩ := getContractName_pure P chain c (pyStr (.vint i)) hg
          refine ⟨?_, ?_⟩
          · simp [formatValue, pureFormatValue, hn1]
          · simp [formatValue]
            exact hn2
        | vbool b =>
          obtain ⟨hn1, hn2⟩ := getContractName_pure P chain c (pyStr (.vbool b)) hg
          refine ⟨?_, ?_⟩
          · simp [formatValue, pureFormatValue, hn1]
          · simp [formatValue]
            exact hn2
        | vbytes bs =>
          obtain ⟨hn1, hn2⟩ := getContractName_pure P chain c (pyStr (.vbytes bs)) hg
          refine ⟨?_, ?_⟩
          · simp [formatValue, pureFormatValue, hn1]
          · simp [formatValue]
            exact hn2
        | vlist es =>
          obtain ⟨hn1, hn2⟩ := getContractName_pure P chain c (pyStr (.vlist es)) hg
          refine ⟨?_, ?_⟩
          · simp [formatValue, pureFormatValue, hn1]
          · simp [formatValue]
            exact hn2
        | vtuple es =>
          obtain ⟨hn1, hn2⟩ := getContractName_pure P chain c (pyStr (.vtuple es)) hg
          refine ⟨?_, ?_⟩
          · simp [formatValue, pureFormatValue, hn1]
          · simp [formatValue]
            exact hn2
      · by_cases ht2 : (strStartsWith t "uint" || strStartsWith t "int") = true
        · have hv : formatValue P chain c v t = (pureFormatValue P chain v t, c) := by
            cases v <;> simp [formatValue, pureFormatValue, ht, ht2]
          rw [hv]
          exact ⟨rfl, hg⟩
        · by_cases ht3 : t = "bool"
          · subst ht3
            have hv : formatValue P chain c v "bool" = (pureFormatValue P chain v "bool", c) := by
              cases v <;> simp [formatValue, pureFormatValue, ht, ht2]
            rw [hv]
            exact ⟨rfl, hg⟩
          · by_cases ht4 : strStartsWith t "bytes" = true
            · have hv : formatValue P chain c v t = (pureFormatValue P chain v t, c) := by
                cases v <;> simp [formatValue, pureFormatValue, ht, ht2, ht3, ht4]
              rw [hv]
              exact ⟨rfl, hg⟩
            · by_cases ht5 : strEndsWith t "[]" = true
              · cases v with
                | vlist elems =>
                  have hlt : sizeOf elems < n := by
                    have : sizeOf (Value.vlist elems) = 1 + sizeOf elems := by
                      simp [Value.vlist.sizeOf_spec]
                    omega
                  obtain ⟨hl1, hl2⟩ :=
                    (ih (sizeOf elems) hlt).2 elems (strDropRight t 2) c le_rfl hg
                  cases hfl : formatValueList P chain c elems (strDropRight t 2) with
                  | mk r c1 =>
                    rw [hfl] at hl1 hl2
                    cases r with
                    | error e =>
                      have hv : formatValue P chain c (.vlist elems) t = (.error e, c1) := by
                        simp [formatValue, ht, ht2, ht3, ht4, ht5, hfl]
                      rw [hv, pureFormatValue]
                      simp [ht, ht2, ht3, ht4, ht5, ← hl1]
                      exact hl2
                    | ok ss =>
                      have hv : formatValue P chain c (.vlist elems) t =
                          (.ok ("[" ++ joinSep ", " ss ++ "]"), c1) := by
                        simp [formatValue, ht, ht2, ht3, ht4, ht5, hfl]
                      rw [hv, pureFormatValue]
                      simp [ht, ht2, ht3, ht4, ht5, ← hl1]
                      exact hl2
                | vtuple elems =>
                  have hlt : sizeOf elems < n := by
                    have : sizeOf (Value.vtuple elems) = 1 + sizeOf elems := by
                      simp [Value.vtuple.sizeOf_spec]
                    omega
                  obtain ⟨hl1, hl2⟩ :=
                    (ih (sizeOf elems) hlt).2 elems (strDropRight t 2) c le_rfl hg
                  cases hfl : formatValueList P chain c elems (strDropRight t 2) with
                  | mk r c1 =>
                    rw [hfl] at hl1 hl2
                    cases r with
                    | error e =>
                      have hv : formatValue P chain c (.vtuple elems) t = (.error e, c1) := by
                        simp [formatValue, ht, ht2, ht3, ht4, ht5, hfl]
                      rw [hv, pureFormatValue]
                      simp [ht, ht2, ht3, ht4, ht5, ← hl1]
                      exact hl2
                    | ok ss =>
                      have hv : formatValue P chain c (.vtuple elems) t =
                          (.ok ("[" ++ joinSep ", " ss ++ "]"), c1) := by
                        simp [formatValue, ht, ht2, ht3, ht4, ht5, hfl]
                      rw [hv, pureFormatValue]
                      simp [ht, ht2, ht3, ht4, ht5, ← hl1]
                      exact hl2
                | vint i =>
                  have hv : formatValue P chain c (.vint i) t =
                      (pureFormatValue P chain (.vint i) t, c) := by
                    simp [formatValue, pureFormatValue, ht, ht2, ht3, ht4, ht5]
                  rw [hv]
                  exact ⟨rfl, hg⟩
                | vbool b =>
                  have hv : formatValue P chain c (.vbool b) t =
                      (pureFormatValue P chain (.vbool b) t, c) := by
                    simp [formatValue, pureFormatValue, ht, ht2, ht3, ht4, ht5]
                  rw [hv]
                  exact ⟨rfl, hg⟩
                | vbytes bs =>
                  have hv : formatValue P chain c (.vbytes bs) t =
                      (pureFormatValue P chain (.vbytes bs) t, c) := by
                    simp [formatValue, pureFormatValue, ht, ht2, ht3, ht4, ht5]
                  rw [hv]
                  exact ⟨rfl, hg⟩
                | vstr s =>
                  have hv : formatValue P chain c (.vstr s) t =
                      (pureFormatValue P chain (.vstr s) t, c) := by
                    simp [formatValue, pureFormatValue, ht, ht2, ht3, ht4, ht5]
                  rw [hv]
                  exact ⟨rfl, hg⟩
              · have hv : formatValue P chain c v t = (pureFormatValue P chain v t, c) := by
                  cases v <;> simp [formatValue, pureFormatValue, ht, ht2, ht3, ht4, ht5]
                rw [hv]
                exact ⟨rfl, hg⟩
    · intro vs t c hsz hg
      cases vs with
      | nil =>
        constructor
        · rfl
        · exact hg
      | cons v rest =>
        have hszc : sizeOf (v :: rest) = 1 + sizeOf v + sizeOf rest := by
          simp [List.cons.sizeOf_spec]
        have hltv : sizeOf v < n := by omega
        have hltr : sizeOf rest < n := by omega
        obtain ⟨hv1, hv2⟩ := (ih (sizeOf v) hltv).1 v t c le_rfl hg
        cases hfv : formatValue P chain c v t with
        | mk r c1 =>
          rw [hfv] at hv1 hv2
          cases r with
          | error e =>
            have hl : formatValueList P chain c (v :: rest) t = (.error e, c1) := by
              simp [formatValueList, hfv]
            rw [hl, pureFormatValueList, ← hv1]
            exact ⟨rfl, hv2⟩
          | ok s =>
            obtain ⟨hr1, hr2⟩ := (ih (sizeOf rest) hltr).2 rest t c1 le_rfl hv2
            cases hfr : formatValueList P chain c1 rest t with
            | mk r2 c2 =>
              rw [hfr] at hr1 hr2
              cases r2 with
              | error e =>
                have hl : formatValueList P chain c (v :: rest) t = (.error e, c2) := by
                  simp [formatValueList, hfv, hfr]
                rw [hl, pureFormatValueList, ← hv1, ← hr1]
                exact ⟨rfl, hr2⟩
              | ok ss =>
                have hl : formatValueList P chain c (v :: rest) t = (.ok (s :: ss), c2) := by
                  simp [formatValueList, hfv, hfr]
                rw [hl, pureFormatValueList, ← hv1, ← hr1]
                exact ⟨rfl, hr2⟩

/-! ## Dispatch facts about array type tags -/

theorem ofChars_chars (s : String) : ofChars (chars s) = s := rfl

theorem chars_append (a b : String) : chars (a ++ b) = chars a ++ chars b :=
  String.data_append a b

theorem arr_tag_ne_address (T : String) : T ++ "[]" ≠ "address" := by
  intro h
  have hd := congrArg String.data h
  rw [String.data_append, show ("[]" : String).data = ['[', ']'] from rfl] at hd
  have h2 := congrArg List.getLast? hd
  rw [show (['[', ']'] : List Char) = ['['] ++ [']'] from rfl, ← List.append_assoc,
    List.getLast?_concat] at h2
  exact absurd h2 (by decide)

theorem arr_tag_ne_bool (T : String) : T ++ "[]" ≠ "bool" := by
  intro h
  have hd := congrArg String.data h
  rw [String.data_append, show ("[]" : String).data = ['[', ']'] from rfl] at hd
  have h2 := congrArg List.getLast? hd
  rw [show (['[', ']'] : List Char) = ['['] ++ [']'] from rfl, ← List.append_assoc,
    List.getLast?_concat] at h2
  exact absurd h2 (by decide)

theorem arr_tag_endsWith (T : String) : strEndsWith (T ++ "[]") "[]" = true := by
  rw [strEndsWith, chars_append, show chars "[]" = ['[', ']'] from rfl, List.reverse_append]
  simp [isPrefixOfL]

theorem arr_tag_dropRight (T : String) : strDropRight (T ++ "[]") 2 = T := by
  rw [strDropRight, chars_append, show chars "[]" = ['[', ']'] from rfl, List.length_append]
  have h2 : (chars T).length + (['[', ']'] : List Char).length - 2 = (chars T).length := by
    simp
  rw [h2, List.take_left]
  exact ofChars_chars T

/-! ## Claim C7 -/

/-- C7 (amended): for an element tag `T` that the earlier scalar
branches do not capture (`T ++ "[]"` does not start with `uint`, `int`
or `bytes`) and a provider-derived cache, `format_value` on the
two-element list recursively formats the elements — both at that same
cache state — and joins them as `[e1, e2]`, an element failure
propagating. -/
theorem claim_C7 (P : Provider) (chain : String) (c : Cache) (a b : Value) (T : String)
    (hg : CacheGood P chain c)
    (h1 : strStartsWith (T ++ "[]") "uint" = false)
    (h2 : strStartsWith (T ++ "[]") "int" = false)
    (h3 : strStartsWith (T ++ "[]") "bytes" = false) :
    (formatValue P chain c (.vlist [a, b]) (T ++ "[]")).1 =
      (do
        let sa ← (formatValue P chain c a T).1
        let sb ← (formatValue P chain c b T).1
        pure ("[" ++ sa ++ ", " ++ sb ++ "]")) := by
  have hfv := ((formatValue_pure_sized P chain (sizeOf (Value.vlist [a, b]))).1
    (Value.vlist [a, b]) (T ++ "[]") c le_rfl hg).1
  have hfa := ((formatValue_pure_sized P chain (sizeOf a)).1 a T c le_rfl hg).1
  have hfb := ((formatValue_pure_sized P chain (sizeOf b)).1 b T c le_rfl hg).1
  rw [hfv, hfa, hfb]
  have hlist : pureFormatValue P chain (.vlist [a, b]) (T ++ "[]") =
      (match pureFormatValueList P chain [a, b] T with
       | .ok ss => .ok ("[" ++ joinSep ", " ss ++ "]")
       | .error e => .error e) := by
    rw [show pureFormatValue P chain (.vlist [a, b]) (T ++ "[]") =
        (if T ++ "[]" = "address" then
          (match Value.vlist [a, b] with
           | .vstr s =>
             (match toChecksumAddress s with
              | none => .error ()
              | some addr_str => .ok (pureName P chain addr_str))
           | v => .ok (pureName P chain (pyStr v)))
        else if strStartsWith (T ++ "[]") "uint" || strStartsWith (T ++ "[]") "int" then
          (match Value.vlist [a, b] with
           | .vint i => .ok (commaFmt i)
           | v => .ok (pyStr v))
        else if T ++ "[]" = "bool" then .ok (pyLower (pyStr (Value.vlist [a, b])))
        else if strStartsWith (T ++ "[]") "bytes" then
          (match Value.vlist [a, b] with
           | .vbytes bs => .ok ("0x" ++ bytesToHex bs)
           | v => .ok (pyStr v))
        else if strEndsWith (T ++ "[]") "[]" then
          (match pureFormatValueList P chain [a, b] (strDropRight (T ++ "[]") 2) with
           | .ok ss => .ok ("[" ++ joinSep ", " ss ++ "]")
           | .error e => .error e)
        else .ok (pyStr (Value.vlist [a, b]))) from by rw [pureFormatValue]]
    rw [if_neg (arr_tag_ne_address T), h1, h2]
    rw [if_neg (by simp), if_neg (arr_tag_ne_bool T), h3, if_neg (by simp),
      if_pos (arr_tag_endsWith T), arr_tag_dropRight T]
  rw [hlist]
  cases hpa : pureFormatValue P chain a T with
  | error e => simp [pureFormatValueList, hpa, Bind.bind, Except.bind]
  | ok sa =>
    cases hpb : pureFormatValue P chain b T with
    | error e => simp [pureFormatValueList, hpa, hpb, Bind.bind, Except.bind]
    | ok sb =>
      simp [pureFormatValueList, hpa, hpb, Bind.bind, Except.bind, Pure.pure, Except.pure,
        joinSep, String.append_assoc]

/-- C7 counterexample: with element tag `uint256` the combined tag
`uint256[]` is captured by the integer branch (`startswith("uint")`)
before the array branch can be reached, so the list renders through
Python `str()` — without thousands separators — and the structural
equation fails at element 1000000. -/
theorem claim_C7_counterexample :
    ¬ ((formatValue nullProvider "BSC" [] (.vlist [.vint 1000000, .vint 2])
        ("uint256" ++ "[]")).1 =
      (do
        let sa ← (formatValue nullProvider "BSC" [] (.vint 1000000) "uint256").1
        let sb ← (formatValue nullProvider "BSC" [] (.vint 2) "uint256").1
        pure ("[" ++ sa ++ ", " ++ sb ++ "]"))) := by decide

/-- Closed instantiation of `claim_C7` discharging its hypotheses at
element tag `bool` and the empty cache. -/
theorem claim_C7_witness :
    (formatValue nullProvider "BSC" [] (.vlist [.vbool true, .vbool false])
        ("bool" ++ "[]")).1 =
      (do
        let sa ← (formatValue nullProvider "BSC" [] (.vbool true) "bool").1
        let sb ← (formatValue nullProvider "BSC" [] (.vbool false) "bool").1
        pure ("[" ++ sa ++ ", " ++ sb ++ "]")) :=
  claim_C7 nullProvider "BSC" [] (.vbool true) (.vbool false) "bool"
    (cacheGood_nil nullProvider "BSC") (by decide) (by decide) (by decide)

/-! ## Claim C8 -/

/-- The shape of address strings the ABI decoder produces: `0x` + 40
lowercase hex digits. -/
def isLowerHexAddr (s : String) : Bool :=
  strStartsWith s "0x" && (chars s).length == 42 &&
    ((chars s).drop 2).all (fun c => ('0' ≤ c && c ≤ '9') || ('a' ≤ c && c ≤ 'f'))

/-- `value` shapes the ABI decoder can produce, paired with their
matching type tags: integers for `uint*`/`int*`, booleans for `bool`,
byte strings for `bytes*`, lowercase hex address strings for `address`,
strings for `string`, and tuples/lists of well-typed elements for
`T[]`. -/
inductive WellTyped : Value → String → Prop where
  | addr (s : String) (h : isLowerHexAddr s = true) : WellTyped (.vstr s) "address"
  | uintV (i : Int) (t : String) (h : strStartsWith t "uint" = true) : WellTyped (.vint i) t
  | intV (i : Int) (t : String) (h : strStartsWith t "int" = true) : WellTyped (.vint i) t
  | boolV (b : Bool) : WellTyped (.vbool b) "bool"
  | bytesV (bs : List Nat) (t : String) (h : strStartsWith t "bytes" = true) :
      WellTyped (.vbytes bs) t
  | strV (s : String) : WellTyped (.vstr s) "string"
  | arrT (vs : List Value) (t : String) (h : ∀ v ∈ vs, WellTyped v t) :
      WellTyped (.vtuple vs) (t ++ "[]")
  | arrL (vs : List Value) (t : String) (h : ∀ v ∈ vs, WellTyped v t) :
      WellTyped (.vlist vs) (t ++ "[]")

theorem char_lowerhex (c : Char)
    (hc : (('0' ≤ c && c ≤ '9') || ('a' ≤ c && c ≤ 'f')) = true) :
    isHexDigit c = true ∧ (!c.isAlpha || c.isLower) = true := by
  simp only [Bool.or_eq_true, Bool.and_eq_true, decide_eq_true_eq] at hc
  rcases hc with ⟨h1, h2⟩ | ⟨h1, h2⟩
  · have hA : ¬('A' ≤ c) := fun hle => absurd (le_trans hle h2) (by decide)
    have ha : ¬('a' ≤ c) := fun hle => absurd (le_trans hle h2) (by decide)
    constructor
    · simp [isHexDigit, hexDigitVal, h1, h2]
    · have hU : c.isUpper = false := by
        simp only [Char.isUpper]
        have : ¬((65 : UInt32) ≤ c.val) := hA
        simp [this]
      have hL : c.isLower = false := by
        simp only [Char.isLower]
        have : ¬((97 : UInt32) ≤ c.val) := ha
        simp [this]
      simp [Char.isAlpha, hU, hL]
  · have h9 : ¬(c ≤ '9') := fun hle => absurd (le_trans h1 hle) (by decide)
    have hz : c ≤ 'z' := le_trans h2 (by decide)
    constructor
    · simp [isHexDigit, hexDigitVal, h1, h2, h9]
    · have hL : c.isLower = true := by
        simp only [Char.isLower]
        have hlo : (97 : UInt32) ≤ c.val := h1
        have hhi : c.val ≤ (122 : UInt32) := hz
        simp [hlo, hhi]
      simp [hL]

theorem toChecksumAddress_some (s : String) (h : isLowerHexAddr s = true) :
    ∃ r, toChecksumAddress s = some r := by
  rw [isLowerHexAddr] at h
  simp only [Bool.and_eq_true, beq_iff_eq] at h
  obtain ⟨⟨hpre, hlen⟩, hall⟩ := h
  have hhex : ((chars s).drop 2).all isHexDigit = true := by
    rw [List.all_eq_true] at hall ⊢
    intro c hcm
    exact (char_lowerhex c (hall c hcm)).1
  have hcase : ((chars s).drop 2).all (fun c => !c.isAlpha || c.isLower) = true := by
    rw [List.all_eq_true] at hall ⊢
    intro c hcm
    exact (char_lowerhex c (hall c hcm)).2
  refine ⟨checksumEncode (((chars s).drop 2).map Char.toLower), ?_⟩
  rw [toChecksumAddress]
  simp [hpre, hlen, hhex, hcase]

theorem formatValueList_total (P : Provider) (chain : String) (t : String) (vs : List Value)
    (hall : ∀ v ∈ vs, ∀ c : Cache, ∃ s c', formatValue P chain c v t = (.ok s, c')) :
    ∀ c, ∃ ss c', formatValueList P chain c vs t = (.ok ss, c') := by
  induction vs with
  | nil => exact fun c => ⟨[], c, rfl⟩
  | cons v rest ih =>
    intro c
    obtain ⟨s, c1, hv⟩ := hall v (List.mem_cons_self v rest) c
    obtain ⟨ss, c2, hr⟩ := ih (fun w hw => hall w (List.mem_cons_of_mem _ hw)) c1
    exact ⟨s :: ss, c2, by simp [formatValueList, hv, hr]⟩

theorem isPrefixOf_head (a b : Char) (p q l : List Char)
    (ha : isPrefixOfL (a :: p) l = true) (hb : isPrefixOfL (b :: q) l = true) : a = b := by
  cases l with
  | nil => simp [isPrefixOfL] at ha
  | cons x xs =>
    simp only [isPrefixOfL] at ha hb
    split at ha
    · rename_i h1
      split at hb
      · rename_i h2
        rw [h1, h2]
      · cases hb
    · cases ha

/-- C8: `format_value` is total on decoder-producible values paired with
their matching type tags — every branch, including the checksum
normalization and cache lookup of the address branch and the recursive
array branch, returns a string without raising, on any cache state. -/
theorem claim_C8 (P : Provider) (chain : String) :
    ∀ (v : Value) (t : String), WellTyped v t →
      ∀ c : Cache, ∃ s c', formatValue P chain c v t = (.ok s, c') := by
  intro v t hwt
  induction hwt with
  | addr s h =>
    intro c
    obtain ⟨r, hr⟩ := toChecksumAddress_some s h
    exact ⟨(getContractName P chain c r).1, (getContractName P chain c r).2,
      by simp [formatValue, hr]⟩
  | uintV i t h =>
    intro c
    have ht : t ≠ "address" := by
      rintro rfl
      exact absurd h (by decide)
    exact ⟨commaFmt i, c, by simp [formatValue, ht, h]⟩
  | intV i t h =>
    intro c
    have ht : t ≠ "address" := by
      rintro rfl
      exact absurd h (by decide)
    exact ⟨commaFmt i, c, by simp [formatValue, ht, h]⟩
  | boolV b =>
    intro c
    have h1 : ("bool" : String) ≠ "address" := by decide
    have h2 : (strStartsWith "bool" "uint" || strStartsWith "bool" "int") = false := by decide
    exact ⟨pyLower (pyStr (.vbool b)), c, by simp [formatValue, h1, h2]⟩
  | bytesV bs t h =>
    intro c
    have ht : t ≠ "address" := by
      rintro rfl
      exact absurd h (by decide)
    have hchb : isPrefixOfL ('b' :: chars "ytes") (chars t) = true := h
    have huint : strStartsWith t "uint" = false := by
      cases hu : strStartsWith t "uint" with
      | false => rfl
      | true =>
        have hchu : isPrefixOfL ('u' :: chars "int") (chars t) = true := hu
        exact absurd (isPrefixOf_head 'u' 'b' _ _ _ hchu hchb) (by decide)
    have hint : strStartsWith t "int" = false := by
      cases hu : strStartsWith t "int" with
      | false => rfl
      | true =>
        have hchi : isPrefixOfL ('i' :: chars "nt") (chars t) = true := hu
        exact absurd (isPrefixOf_head 'i' 'b' _ _ _ hchi hchb) (by decide)
    have hbool : t ≠ "bool" := by
      rintro rfl
      exact absurd h (by decide)
    exact ⟨"0x" ++ bytesToHex bs, c, by simp [formatValue, ht, huint, hint, hbool, h]⟩
  | strV s =>
    intro c
    have h1 : ("string" : String) ≠ "address" := by decide
    have h2 : (strStartsWith "string" "uint" || strStartsWith "string" "int") = false := by
      decide
    have h3 : ("string" : String) ≠ "bool" := by decide
    have h4 : strStartsWith "string" "bytes" = false := by decide
    have h5 : strEndsWith "string" "[]" = false := by decide
    exact ⟨s, c, by simp [formatValue, h1, h2, h3, h4, h5, pyStr]⟩
  | arrT vs t h ih =>
    intro c
    have haddr := arr_tag_ne_address t
    by_cases hui : (strStartsWith (t ++ "[]") "uint" || strStartsWith (t ++ "[]") "int") = true
    · exact ⟨pyStr (.vtuple vs), c, by simp [formatValue, haddr, hui]⟩
    · have hbool := arr_tag_ne_bool t
      by_cases hby : strStartsWith (t ++ "[]") "bytes" = true
      · exact ⟨pyStr (.vtuple vs), c, by simp [formatValue, haddr, hui, hbool, hby]⟩
      · obtain ⟨ss, c', hl⟩ := formatValueList_total P chain t vs ih c
        exact ⟨"[" ++ joinSep ", " ss ++ "]", c',
          by simp [formatValue, haddr, hui, hbool, hby, arr_tag_endsWith t,
            arr_tag_dropRight t, hl]⟩
  | arrL vs t h ih =>
    intro c
    have haddr := arr_tag_ne_address t
    by_cases hui : (strStartsWith (t ++ "[]") "uint" || strStartsWith (t ++ "[]") "int") = true
    · exact ⟨pyStr (.vlist vs), c, by simp [formatValue, haddr, hui]⟩
    · have hbool := arr_tag_ne_bool t
      by_cases hby : strStartsWith (t ++ "[]") "bytes" = true
      · exact ⟨pyStr (.vlist vs), c, by simp [formatValue, haddr, hui, hbool, hby]⟩
      · obtain ⟨ss, c', hl⟩ := formatValueList_total P chain t vs ih c
        exact ⟨"[" ++ joinSep ", " ss ++ "]", c',
          by simp [formatValue, haddr, hui, hbool, hby, arr_tag_endsWith t,
            arr_tag_dropRight t, hl]⟩

/-- Closed instantiation of `claim_C8` discharging its well-typedness
hypothesis on a lowercase hex address string. -/
theorem claim_C8_witness :
    ∃ s c', formatValue nullProvider "BSC" []
      (.vstr "0x5aaeb6053f3e94c9b9a09f33669435e7ef1beaed") "address" = (.ok s, c') :=
  claim_C8 nullProvider "BSC" _ _
    (WellTyped.addr "0x5aaeb6053f3e94c9b9a09f33669435e7ef1beaed" (by decide)) []

end EVMTrace
